import Mathlib

/-!
# Verification of the Dev-Knowledge crawl-and-ingest pipeline

Shallow embedding of the core of the Dev-Knowledge repository: the
`ScraperUtils` crawler (visited set, pending queue, batch fetching, batch
ingest with frontier trimming), the `processScrapedResult` ingest step, and
the `Database.searchVectors` ranking contract.

Modelling conventions:
* URLs are modelled as parsed records (hostname, pathname, fragment flag).
  WHATWG URL parsing and relative-reference resolution are external library
  behaviour, so link discovery is modelled as data: the external world
  supplies, for a page content and a base URL, the list of candidate
  resolved URLs (with failures to parse represented as Option.none).  The
  in-repository filters (isWithinSameDomain, isValidUrl) are translated
  faithfully and applied to those candidates.
* JavaScript Set objects are modelled as insertion-ordered duplicate-free
  lists, with add as append-if-absent.
* The event loop is modelled by the observation that each processUrl call
  runs synchronously up to its first await: for a batch, first every member
  is checked against visited, marked visited and has its fetch issued (the
  synchronous prefixes, in batch order), and then the continuations
  (record result, extract and enqueue links) run.  Continuations are
  modelled in batch order; the proved invariants do not depend on the
  completion order.
* Ghost fields (fetched, produced, handed, enqueuedEver) record the event
  history that the specification talks about; they are write-only and do
  not influence control flow.
-/

/-- A parsed absolute URL.  hostname and pathname are the WHATWG components;
hasFragment records whether the serialised href contains the character
'#' (the check the source performs on the href string). -/
structure Url where
  hostname : String
  pathname : String
  hasFragment : Bool
deriving DecidableEq, Repr

/-- A scrape result: the fetched URL together with its raw content
(interface ScrapeResult, fields url and content). -/
structure ScrapeResult where
  url : Url
  content : String
deriving DecidableEq, Repr

/-- The external world seen by the crawler: fetching a URL either yields its
raw content or fails (network error, timeout, non-2xx — the failure is
thrown by scrapeUrl and caught in processUrl), and a page content together
with a base URL yields a list of candidate resolved hrefs, where none
stands for an href that fails URL parsing (silently skipped). -/
structure Web where
  fetch : Url → Option String
  hrefs : String → Url → List (Option Url)

/-- JavaScript Set.add on an insertion-ordered list: a no-op when the
element is already present, otherwise append. -/
def setAdd (s : List Url) (u : Url) : List Url :=
  if u ∈ s then s else s ++ [u]

/-- String lowercasing (JS toLowerCase, character-by-character case
mapping), written over the character list so that it evaluates by kernel
reduction. -/
def lowerStr (s : String) : String := ⟨s.data.map Char.toLower⟩

/-- String endsWith (JS endsWith), written over character lists. -/
def strEndsWith (s pat : String) : Bool := pat.data.isSuffixOf s.data

/-- String includes for a single character (JS includes), written over
character lists. -/
def strContainsChar (s : String) (c : Char) : Bool := s.data.contains c

namespace ScraperUtils

/-- ScraperUtils.isValidUrl: rejects any URL whose href contains the
character '#', otherwise lowercases the pathname and accepts iff it ends
with .html or .htm or contains no '.' at all. -/
def isValidUrl (u : Url) : Bool :=
  if u.hasFragment then false
  else
    let pathname := lowerStr u.pathname
    strEndsWith pathname ".html" || strEndsWith pathname ".htm" ||
      !(strContainsChar pathname '.')

/-- ScraperUtils.isWithinSameDomain: exact hostname equality between the
candidate URL and the base URL (the URL of the page being processed). -/
def isWithinSameDomain (u base : Url) : Bool :=
  u.hostname == base.hostname

/-- ScraperUtils.extractLinks: run over the candidate hrefs of the content
(resolution against the base URL supplied by the external world), skip
unparseable ones, and keep those passing isWithinSameDomain and
isValidUrl. -/
def extractLinks (web : Web) (html : String) (base : Url) : List Url :=
  (web.hrefs html base).filterMap fun h =>
    match h with
    | none => none
    | some u =>
      if isWithinSameDomain u base && isValidUrl u then some u else none

/-- The parameters of one scrapeAll run: maxDepth, concurrency, batchSize,
and whether the optional encoder and schema arguments were provided. -/
structure Config where
  maxDepth : Nat
  concurrency : Nat
  batchSize : Nat
  hasEncoder : Bool
  hasSchema : Bool
deriving Repr

/-- The mutable state of one ScraperUtils instance, plus ghost history.
visited and queue are the two Set fields; results is the ScrapeResult
buffer.  Ghost fields: fetched is the sequence of fetch attempts issued,
produced the sequence of results ever pushed into the buffer, handed the
sequence of results ever passed to processScrapedResult, and enqueuedEver
the sequence of URLs ever inserted into the pending queue. -/
structure CrawlState where
  visited : List Url
  queue : List Url
  results : List ScrapeResult
  fetched : List Url
  produced : List ScrapeResult
  handed : List ScrapeResult
  enqueuedEver : List Url
deriving Repr

/-- The state of a fresh ScraperUtils instance. -/
def emptyState : CrawlState :=
  { visited := [], queue := [], results := [], fetched := [],
    produced := [], handed := [], enqueuedEver := [] }

/-- this.queue.add(u), recording ghost history on a real insertion. -/
def enqueue (s : CrawlState) (u : Url) : CrawlState :=
  if u ∈ s.queue then s
  else { s with queue := s.queue ++ [u], enqueuedEver := s.enqueuedEver ++ [u] }

/-- Synchronous prefixes of processUrl for a batch, in batch order: each
member already in visited returns early; each other member is added to
visited and has its fetch issued (recorded in the fetched ghost).  Returns
the updated state and the members that proceed to the fetch. -/
def markPhase (s : CrawlState) : List Url → CrawlState × List Url
  | [] => (s, [])
  | u :: rest =>
    if u ∈ s.visited then markPhase s rest
    else
      let s' := { s with visited := s.visited ++ [u], fetched := s.fetched ++ [u] }
      let p := markPhase s' rest
      (p.1, u :: p.2)

/-- The newLinks.forEach loop of processUrl: enqueue every link that is not
in visited. -/
def enqueueLinks (s : CrawlState) (links : List Url) : CrawlState :=
  links.foldl (fun t link => if link ∈ t.visited then t else enqueue t link) s

/-- Continuation of processUrl for one URL at a given depth: on fetch
failure the error is caught and logged and nothing else happens; on success
the result is pushed, and when depth < maxDepth the extracted links not in
visited are enqueued. -/
def processUrlCont (web : Web) (cfg : Config) (depth : Nat) (s : CrawlState)
    (u : Url) : CrawlState :=
  match web.fetch u with
  | none => s
  | some content =>
    let s1 := { s with results := s.results ++ [⟨u, content⟩],
                       produced := s.produced ++ [⟨u, content⟩] }
    if depth < cfg.maxDepth then enqueueLinks s1 (extractLinks web content u)
    else s1

/-- Continuations of processUrl for the kept batch members, in order. -/
def fetchPhase (web : Web) (cfg : Config) (depth : Nat) :
    CrawlState → List Url → CrawlState
  | s, [] => s
  | s, u :: rest => fetchPhase web cfg depth (processUrlCont web cfg depth s u) rest

/-- The frontier trim inside processBatch: when the queue holds more than
10000 entries, take the insertion-order array, keep slice(-10000), clear
the set and re-add the kept entries in order. -/
def trimQueue (q : List Url) : List Url :=
  if 10000 < q.length then
    let last10k := q.drop (q.length - 10000)
    last10k.foldl setAdd []
  else q

/-- ScraperUtils.processBatch: splice the first batchSize results out of the
buffer; if encoder or schema is missing, return with the buffer already
spliced; otherwise hand every spliced result to processScrapedResult
(Promise.allSettled — per-item failures are isolated), then reset the
results buffer to empty and trim the queue. -/
def processBatch (cfg : Config) (batchSize : Nat) (s : CrawlState) : CrawlState :=
  let batch := s.results.take batchSize
  let rest := s.results.drop batchSize
  if cfg.hasEncoder = true ∧ cfg.hasSchema = true then
    { s with results := [],
             handed := s.handed ++ batch,
             queue := trimQueue s.queue }
  else
    { s with results := rest }

/-- One iteration of the while loop of scrapeAll: take the first
concurrency entries of the queue as the batch and delete them from the
queue, run the batch (every member passed to processUrl with depth 0),
await settlement, then drain a batch of results if the buffer has reached
batchSize and encoder and schema are present. -/
def loopIter (web : Web) (cfg : Config) (s : CrawlState) : CrawlState :=
  let batch := s.queue.take cfg.concurrency
  let s0 := { s with queue := s.queue.drop cfg.concurrency }
  let p := markPhase s0 batch
  let s2 := fetchPhase web cfg 0 p.1 p.2
  if cfg.batchSize ≤ s2.results.length ∧ cfg.hasEncoder = true ∧ cfg.hasSchema = true then
    processBatch cfg cfg.batchSize s2
  else s2

/-- The while loop of scrapeAll, with explicit fuel: stop when the queue is
empty or the fuel runs out. -/
def crawlLoop (web : Web) (cfg : Config) : Nat → CrawlState → CrawlState
  | 0, s => s
  | fuel + 1, s =>
    if s.queue = [] then s else crawlLoop web cfg fuel (loopIter web cfg s)

/-- The state of a ScraperUtils after this.queue.add(baseUrl). -/
def initState (seed : Url) : CrawlState :=
  enqueue emptyState seed

/-- ScraperUtils.scrapeAll: seed the queue, run the loop, then flush any
remaining buffered results when encoder and schema are present, and return
the results buffer.  Returns the final state together with the returned
array. -/
def scrapeAll (web : Web) (cfg : Config) (fuel : Nat) (seed : Url) :
    CrawlState × List ScrapeResult :=
  let s := crawlLoop web cfg fuel (initState seed)
  let s' :=
    if 0 < s.results.length ∧ cfg.hasEncoder = true ∧ cfg.hasSchema = true then
      processBatch cfg s.results.length s
    else s
  (s', s'.results)

end ScraperUtils

namespace Database

/-- A row of the embedding table (interface EmbeddingStored).  Vector
components are modelled as rationals: the stored Float32 values are
external data and only their ordering under the distance function matters
to the contract. -/
structure StoredRow where
  id : String
  source : String
  content : String
  vector : List ℚ
  timestamp : ℤ
deriving DecidableEq, Repr

/-- A row returned by searchVectors (interface EmbeddingQuery). -/
structure QueryRow where
  id : String
  source : String
  content : String
  vector : List ℚ
  timestamp : ℤ
  distance : ℚ
  similarity : ℤ
deriving DecidableEq, Repr

/-- JS Math.round: round half toward positive infinity. -/
def mathRound (x : ℚ) : ℤ := (x + 1 / 2).floor

/-- The ORDER BY relation of the searchVectors statement: ascending
distance on rows paired with their computed distance. -/
def distLE (a b : StoredRow × ℚ) : Prop := a.2 ≤ b.2

instance : DecidableRel distLE := fun a b => inferInstanceAs (Decidable (a.2 ≤ b.2))

instance : IsTotal (StoredRow × ℚ) distLE := ⟨fun a b => le_total a.2 b.2⟩

instance : IsTrans (StoredRow × ℚ) distLE := ⟨fun _ _ _ h1 h2 => le_trans h1 h2⟩

/-- The result mapping of searchVectors: a row and its selected distance
mapped to the returned record, with similarity reported as
Math.round((1 - distance) * 100) (the distance selected by the statement
is always present, so the ?? 0 fallback never fires). -/
def toQueryRow (rd : StoredRow × ℚ) : QueryRow :=
  { id := rd.1.id, source := rd.1.source, content := rd.1.content,
    vector := rd.1.vector, timestamp := rd.1.timestamp,
    distance := rd.2, similarity := mathRound ((1 - rd.2) * 100) }

/-- Database.searchVectors: the prepared statement computes
vec_distance_cosine(vector, query) for every row of the embedding table,
orders ascending by that distance, limits the result to the given count,
and maps each selected row through toQueryRow.
vec_distance_cosine is the external sqlite-vec function; with the query
vector fixed, it is modelled as an arbitrary function dist of the stored
vector, and the unspecified ORDER BY tie-breaking is realised by a stable
sort. -/
def searchVectors (rows : List StoredRow) (dist : List ℚ → ℚ) (limit : Nat) :
    List QueryRow :=
  let withDist := rows.map fun r => (r, dist r.vector)
  let sorted := List.insertionSort distLE withDist
  (sorted.take limit).map toQueryRow

end Database

namespace Processor

/-- The state visible to processScrapedResult: the texts handed to the
encoder, the rows inserted into the database, and the error and info log
lines. -/
structure ProcState where
  embedCalls : List String
  inserted : List Database.StoredRow
  errorLogs : List String
  infoLogs : List String
deriving DecidableEq, Repr

/-- processScrapedResult: apply the schema transform (schema.parse) to the
scraped content; when it yields null or an empty string, return with no
further effect; otherwise compute one embedding for the markdown
(encoder.extract on a one-element list; data[0] with the ?? [] fallback
for a missing row), insert the row and log at info level.  href models the
serialisation of the URL back to the string stored as source; genId and
now model GeneratorUtils.generateId and Date.now. -/
def processScrapedResult (parse : String → Option String)
    (embed : String → Option (List ℚ)) (href : Url → String) (genId : String)
    (now : ℤ) (result : ScrapeResult) (st : ProcState) : ProcState :=
  match parse result.content with
  | none => st
  | some markdown =>
    if markdown.length = 0 then st
    else
      { st with
        embedCalls := st.embedCalls ++ [markdown],
        inserted := st.inserted ++
          [{ id := genId, source := href result.url, content := markdown,
             vector := (embed markdown).getD [], timestamp := now }],
        infoLogs := st.infoLogs ++ [href result.url ++ " Stored successfully."] }

end Processor

/-! ## Concrete worlds used for counterexamples and witnesses -/

/-- Seed URL of the concrete example site. -/
def uSeed : Url := ⟨"a.test", "/", false⟩

/-- Page a of the concrete example site. -/
def uA : Url := ⟨"a.test", "/a", false⟩

/-- Page b of the concrete example site. -/
def uB : Url := ⟨"a.test", "/b", false⟩

/-- Page c of the concrete example site. -/
def uC : Url := ⟨"a.test", "/c", false⟩

/-- Page d of the concrete example site. -/
def uD : Url := ⟨"a.test", "/d", false⟩

/-- Page e of the concrete example site. -/
def uE : Url := ⟨"a.test", "/e", false⟩

/-- Link structure of a chain site: the seed links to a, a to b, b to c,
c to d, d to e.  Pages are keyed by their content, which the chain web
serves as the pathname. -/
def chainLinks : String → List (Option Url)
  | "/" => [some uA]
  | "/a" => [some uB]
  | "/b" => [some uC]
  | "/c" => [some uD]
  | "/d" => [some uE]
  | _ => []

/-- The chain world: every fetch succeeds and serves the pathname as
content; hrefs follow chainLinks.  Along the chain, a is first discovered
at depth 1, b at 2, c at 3, d at 4, e at 5. -/
def chainWeb : Web := { fetch := fun u => some u.pathname, hrefs := fun c _ => chainLinks c }

/-- A run configuration with the default parameters of scrapeAll
(maxDepth 3, concurrency 10, batchSize 100) and no encoder or schema. -/
def chainCfg : ScraperUtils.Config :=
  { maxDepth := 3, concurrency := 10, batchSize := 100,
    hasEncoder := false, hasSchema := false }

/-- Link structure of a fan site: the seed links to a and b, which have no
links of their own. -/
def fanLinks : String → List (Option Url)
  | "/" => [some uA, some uB]
  | _ => []

/-- The fan world: every fetch succeeds and serves the pathname as
content; hrefs follow fanLinks. -/
def fanWeb : Web := { fetch := fun u => some u.pathname, hrefs := fun c _ => fanLinks c }

/-- A run configuration with concurrency 2 and batchSize 1, with encoder
and schema provided. -/
def fanCfg : ScraperUtils.Config :=
  { maxDepth := 3, concurrency := 2, batchSize := 1,
    hasEncoder := true, hasSchema := true }

/-- A world where the fetch of uB fails (for example a timeout surfacing as
a FetchError) and every other fetch succeeds; pages have no links. -/
def isolWeb : Web :=
  { fetch := fun u => if u = uB then none else some u.pathname,
    hrefs := fun _ _ => [] }

/-- A URL whose path has a dot inside a directory segment but whose final
segment has no extension, as in /docs/latest-v24.x/api/ style paths. -/
def uDotted : Url := ⟨"a.test", "/v1.2/guide", false⟩

/-- Concrete stored rows for the search ranking example. -/
def rowA : Database.StoredRow := ⟨"idA", "srcA", "ca", [1], 0⟩

/-- Second concrete stored row. -/
def rowB : Database.StoredRow := ⟨"idB", "srcB", "cb", [2], 0⟩

/-- Third concrete stored row. -/
def rowC : Database.StoredRow := ⟨"idC", "srcC", "cc", [3], 0⟩

/-- A concrete distance function giving the stored vectors cosine
distances 0.1, 0.4 and 0.9 from the query. -/
def exDist : List ℚ → ℚ := fun v => if v = [1] then 1 / 10 else if v = [2] then 4 / 10 else 9 / 10

/-! ## Invariant predicates over crawl states -/

namespace ScraperUtils

/-- The fetch history invariant: the fetch attempts issued are exactly the
visited URLs, in order and without duplicates. -/
def GoodState (s : CrawlState) : Prop :=
  s.fetched = s.visited ∧ s.visited.Nodup

/-- The hostname invariant for a seed hostname h: every URL in the pending
queue, in the visited set, ever enqueued or ever fetched has hostname h. -/
def HostOk (h : String) (s : CrawlState) : Prop :=
  (∀ u ∈ s.queue, u.hostname = h) ∧ (∀ u ∈ s.visited, u.hostname = h) ∧
  (∀ u ∈ s.enqueuedEver, u.hostname = h) ∧ (∀ u ∈ s.fetched, u.hostname = h)

/-- The buffer invariant: the results handed to the ingest pipeline
followed by the results still buffered form a sublist of the results ever
produced, so no produced result is ever handed twice. -/
def BufOk (s : CrawlState) : Prop :=
  (s.handed ++ s.results).Sublist s.produced

end ScraperUtils

/-! ## The eligibility predicate in the words of the specification -/

/-- The characters of l after the last occurrence of sep, all of l when
sep does not occur. -/
def afterLast (sep : Char) (l : List Char) : List Char :=
  l.foldl (fun acc c => if c = sep then [] else acc ++ [c]) []

/-- The final segment of a URL path: the characters after the last
slash. -/
def finalSegment (path : String) : List Char := afterLast '/' path.data

/-- The extension of a URL path as the word is commonly understood and as
the specification uses it: the characters of the final path segment after
its last dot, when the final segment contains a dot; a path whose final
segment contains no dot has no extension. -/
def pathExtension (path : String) : Option (List Char) :=
  if (finalSegment path).contains '.' then some (afterLast '.' (finalSegment path))
  else none

/-- Link eligibility as the specification claim words it, clauses (c) and
(d) of the link eligibility filter: no fragment component, and the path
has no extension, or extension html or htm case-insensitively. -/
def specEligible (u : Url) : Bool :=
  !u.hasFragment &&
    match pathExtension u.pathname with
    | none => true
    | some ext =>
      (ext.map Char.toLower == "html".data) || (ext.map Char.toLower == "htm".data)

/-- The amended eligibility predicate: no fragment component, and the
lowercased path ends with .html or .htm, or the path contains no dot
character at all — a dot anywhere in the path, including inside a
directory segment, disqualifies a URL that does not end with .html or
.htm. -/
def specEligibleAmended (u : Url) : Bool :=
  !u.hasFragment &&
    (strEndsWith (lowerStr u.pathname) ".html" || strEndsWith (lowerStr u.pathname) ".htm" ||
      !(strContainsChar u.pathname '.'))

/-! ## Frame lemmas for the crawl operations -/

namespace ScraperUtils

theorem enqueue_visited (s : CrawlState) (u : Url) :
    (enqueue s u).visited = s.visited := by
  unfold enqueue; split <;> rfl

theorem enqueue_fetched (s : CrawlState) (u : Url) :
    (enqueue s u).fetched = s.fetched := by
  unfold enqueue; split <;> rfl

theorem enqueue_results (s : CrawlState) (u : Url) :
    (enqueue s u).results = s.results := by
  unfold enqueue; split <;> rfl

theorem enqueue_produced (s : CrawlState) (u : Url) :
    (enqueue s u).produced = s.produced := by
  unfold enqueue; split <;> rfl

theorem enqueue_handed (s : CrawlState) (u : Url) :
    (enqueue s u).handed = s.handed := by
  unfold enqueue; split <;> rfl

theorem enqueueLinks_visited : ∀ (links : List Url) (s : CrawlState),
    (enqueueLinks s links).visited = s.visited
  | [], _ => rfl
  | a :: t, s => by
    show (enqueueLinks (if a ∈ s.visited then s else enqueue s a) t).visited = s.visited
    rw [enqueueLinks_visited t]
    split
    · rfl
    · exact enqueue_visited s a

theorem enqueueLinks_fetched : ∀ (links : List Url) (s : CrawlState),
    (enqueueLinks s links).fetched = s.fetched
  | [], _ => rfl
  | a :: t, s => by
    show (enqueueLinks (if a ∈ s.visited then s else enqueue s a) t).fetched = s.fetched
    rw [enqueueLinks_fetched t]
    split
    · rfl
    · exact enqueue_fetched s a

theorem enqueueLinks_results : ∀ (links : List Url) (s : CrawlState),
    (enqueueLinks s links).results = s.results
  | [], _ => rfl
  | a :: t, s => by
    show (enqueueLinks (if a ∈ s.visited then s else enqueue s a) t).results = s.results
    rw [enqueueLinks_results t]
    split
    · rfl
    · exact enqueue_results s a

theorem enqueueLinks_produced : ∀ (links : List Url) (s : CrawlState),
    (enqueueLinks s links).produced = s.produced
  | [], _ => rfl
  | a :: t, s => by
    show (enqueueLinks (if a ∈ s.visited then s else enqueue s a) t).produced = s.produced
    rw [enqueueLinks_produced t]
    split
    · rfl
    · exact enqueue_produced s a

theorem enqueueLinks_handed : ∀ (links : List Url) (s : CrawlState),
    (enqueueLinks s links).handed = s.handed
  | [], _ => rfl
  | a :: t, s => by
    show (enqueueLinks (if a ∈ s.visited then s else enqueue s a) t).handed = s.handed
    rw [enqueueLinks_handed t]
    split
    · rfl
    · exact enqueue_handed s a

theorem processUrlCont_visited (web : Web) (cfg : Config) (depth : Nat)
    (s : CrawlState) (u : Url) :
    (processUrlCont web cfg depth s u).visited = s.visited := by
  unfold processUrlCont
  cases web.fetch u with
  | none => rfl
  | some c =>
    dsimp only
    split
    · rw [enqueueLinks_visited]
    · rfl

theorem processUrlCont_fetched (web : Web) (cfg : Config) (depth : Nat)
    (s : CrawlState) (u : Url) :
    (processUrlCont web cfg depth s u).fetched = s.fetched := by
  unfold processUrlCont
  cases web.fetch u with
  | none => rfl
  | some c =>
    dsimp only
    split
    · rw [enqueueLinks_fetched]
    · rfl

theorem processUrlCont_handed (web : Web) (cfg : Config) (depth : Nat)
    (s : CrawlState) (u : Url) :
    (processUrlCont web cfg depth s u).handed = s.handed := by
  unfold processUrlCont
  cases web.fetch u with
  | none => rfl
  | some c =>
    dsimp only
    split
    · rw [enqueueLinks_handed]
    · rfl

theorem fetchPhase_visited (web : Web) (cfg : Config) (depth : Nat) :
    ∀ (kept : List Url) (s : CrawlState),
    (fetchPhase web cfg depth s kept).visited = s.visited
  | [], _ => rfl
  | u :: rest, s => by
    show (fetchPhase web cfg depth (processUrlCont web cfg depth s u) rest).visited = s.visited
    rw [fetchPhase_visited web cfg depth rest, processUrlCont_visited]

theorem fetchPhase_fetched (web : Web) (cfg : Config) (depth : Nat) :
    ∀ (kept : List Url) (s : CrawlState),
    (fetchPhase web cfg depth s kept).fetched = s.fetched
  | [], _ => rfl
  | u :: rest, s => by
    show (fetchPhase web cfg depth (processUrlCont web cfg depth s u) rest).fetched = s.fetched
    rw [fetchPhase_fetched web cfg depth rest, processUrlCont_fetched]

theorem fetchPhase_handed (web : Web) (cfg : Config) (depth : Nat) :
    ∀ (kept : List Url) (s : CrawlState),
    (fetchPhase web cfg depth s kept).handed = s.handed
  | [], _ => rfl
  | u :: rest, s => by
    show (fetchPhase web cfg depth (processUrlCont web cfg depth s u) rest).handed = s.handed
    rw [fetchPhase_handed web cfg depth rest, processUrlCont_handed]

theorem markPhase_queue : ∀ (batch : List Url) (s : CrawlState),
    (markPhase s batch).1.queue = s.queue
  | [], _ => rfl
  | u :: rest, s => by
    unfold markPhase
    split
    · exact markPhase_queue rest s
    · exact markPhase_queue rest _

theorem markPhase_results : ∀ (batch : List Url) (s : CrawlState),
    (markPhase s batch).1.results = s.results
  | [], _ => rfl
  | u :: rest, s => by
    unfold markPhase
    split
    · exact markPhase_results rest s
    · exact markPhase_results rest _

theorem markPhase_produced : ∀ (batch : List Url) (s : CrawlState),
    (markPhase s batch).1.produced = s.produced
  | [], _ => rfl
  | u :: rest, s => by
    unfold markPhase
    split
    · exact markPhase_produced rest s
    · exact markPhase_produced rest _

theorem markPhase_handed : ∀ (batch : List Url) (s : CrawlState),
    (markPhase s batch).1.handed = s.handed
  | [], _ => rfl
  | u :: rest, s => by
    unfold markPhase
    split
    · exact markPhase_handed rest s
    · exact markPhase_handed rest _

theorem markPhase_enqueuedEver : ∀ (batch : List Url) (s : CrawlState),
    (markPhase s batch).1.enqueuedEver = s.enqueuedEver
  | [], _ => rfl
  | u :: rest, s => by
    unfold markPhase
    split
    · exact markPhase_enqueuedEver rest s
    · exact markPhase_enqueuedEver rest _

theorem processBatch_visited (cfg : Config) (bs : Nat) (s : CrawlState) :
    (processBatch cfg bs s).visited = s.visited := by
  unfold processBatch; split <;> rfl

theorem processBatch_fetched (cfg : Config) (bs : Nat) (s : CrawlState) :
    (processBatch cfg bs s).fetched = s.fetched := by
  unfold processBatch; split <;> rfl

theorem processBatch_produced (cfg : Config) (bs : Nat) (s : CrawlState) :
    (processBatch cfg bs s).produced = s.produced := by
  unfold processBatch; split <;> rfl

theorem processBatch_enqueuedEver (cfg : Config) (bs : Nat) (s : CrawlState) :
    (processBatch cfg bs s).enqueuedEver = s.enqueuedEver := by
  unfold processBatch; split <;> rfl

end ScraperUtils

/-! ## Set re-add and frontier trim -/

theorem mem_foldl_setAdd : ∀ (l acc : List Url) (u : Url),
    u ∈ l.foldl setAdd acc → u ∈ acc ∨ u ∈ l
  | [], _, _, h => Or.inl h
  | a :: t, acc, u, h => by
    rcases mem_foldl_setAdd t (setAdd acc a) u h with h' | h'
    · unfold setAdd at h'
      split at h'
      · exact Or.inl h'
      · rcases List.mem_append.mp h' with h'' | h''
        · exact Or.inl h''
        · simp only [List.mem_singleton] at h''
          subst h''
          exact Or.inr (List.mem_cons_self _ _)
    · exact Or.inr (List.mem_cons_of_mem _ h')

theorem foldl_setAdd_eq_append : ∀ (l acc : List Url), l.Nodup →
    (∀ x ∈ l, x ∉ acc) → l.foldl setAdd acc = acc ++ l
  | [], acc, _, _ => by simp
  | a :: t, acc, hd, hdis => by
    have ha : a ∉ acc := hdis a (List.mem_cons_self _ _)
    show t.foldl setAdd (setAdd acc a) = acc ++ a :: t
    rw [setAdd, if_neg ha,
      foldl_setAdd_eq_append t (acc ++ [a]) hd.of_cons ?_]
    · simp
    · intro x hx hmem
      rcases List.mem_append.mp hmem with h | h
      · exact hdis x (List.mem_cons_of_mem _ hx) h
      · simp only [List.mem_singleton] at h
        subst h
        exact (List.nodup_cons.mp hd).1 hx

/-- For a duplicate-free queue longer than the ceiling, the trim keeps
exactly the insertion-order tail of length 10000. -/
theorem trimQueue_eq_of_lt (q : List Url) (hq : q.Nodup) (h : 10000 < q.length) :
    ScraperUtils.trimQueue q = q.drop (q.length - 10000) := by
  unfold ScraperUtils.trimQueue
  rw [if_pos h]
  have hnd : (q.drop (q.length - 10000)).Nodup :=
    (List.drop_sublist _ _).nodup hq
  rw [foldl_setAdd_eq_append _ _ hnd (by intro x _ hx; exact (List.not_mem_nil x) hx)]
  exact List.nil_append _

/-- A queue within the ceiling is left unchanged by the trim. -/
theorem trimQueue_eq_of_le (q : List Url) (h : q.length ≤ 10000) :
    ScraperUtils.trimQueue q = q := by
  unfold ScraperUtils.trimQueue
  rw [if_neg (by omega)]

/-- C4: after each ingest batch the frontier trim bounds the pending queue
at 10000 entries: a queue of at most 10000 entries is left unchanged, and
a larger queue is truncated to exactly its 10000 most recently inserted
entries in insertion order (the insertion-order tail). -/
theorem c4_frontier_trim (q : List Url) (hq : q.Nodup) :
    (ScraperUtils.trimQueue q).length ≤ 10000 ∧
    (q.length ≤ 10000 → ScraperUtils.trimQueue q = q) ∧
    (10000 < q.length →
      ScraperUtils.trimQueue q = q.drop (q.length - 10000) ∧
      (ScraperUtils.trimQueue q).length = 10000) := by
  by_cases h : 10000 < q.length
  · have heq := trimQueue_eq_of_lt q hq h
    have hlen : (ScraperUtils.trimQueue q).length = 10000 := by
      rw [heq, List.length_drop]; omega
    exact ⟨by omega, fun h' => absurd h' (by omega), fun _ => ⟨heq, hlen⟩⟩
  · have heq := trimQueue_eq_of_le q (by omega)
    exact ⟨by rw [heq]; omega, fun _ => heq, fun h' => absurd h' h⟩

/-- Witness for C4: the hypotheses hold and the trim is evaluated at the
concrete one-element queue, which is left unchanged. -/
theorem c4_frontier_trim_witness :
    [uSeed].Nodup ∧ [uSeed].length ≤ 10000 ∧ ScraperUtils.trimQueue [uSeed] = [uSeed] :=
  ⟨by decide, by decide, (c4_frontier_trim [uSeed] (by decide)).2.1 (by decide)⟩

/-! ## Character-level facts about lowercasing and the dot -/

theorem toLower_eq_dot_iff (c : Char) : Char.toLower c = '.' ↔ c = '.' := by
  constructor
  · intro h
    unfold Char.toLower at h
    dsimp only at h
    split at h
    · exfalso
      have hb : ∀ m, m < 123 → 97 ≤ m → (Char.ofNat m).toNat ≠ 46 := by decide
      rename_i hr
      have hk := hb (c.toNat + 32) (by omega) (by omega)
      rw [h] at hk
      exact hk rfl
    · exact h
  · intro h
    subst h
    rfl

theorem beq_dot_toLower (a : Char) : ('.' == Char.toLower a) = ('.' == a) := by
  by_cases h : a = '.'
  · subst h; rfl
  · have h2 : Char.toLower a ≠ '.' := fun hc => h ((toLower_eq_dot_iff a).mp hc)
    have h3 : ('.' : Char) ≠ a := fun hc => h hc.symm
    have h4 : ('.' : Char) ≠ Char.toLower a := fun hc => h2 hc.symm
    simp [h3, h4]

/-- Lowercasing a path neither creates nor removes dot characters. -/
theorem strContainsChar_lowerStr_dot (s : String) :
    strContainsChar (lowerStr s) '.' = strContainsChar s '.' := by
  show (s.data.map Char.toLower).contains '.' = s.data.contains '.'
  induction s.data with
  | nil => rfl
  | cons a t ih =>
    simp only [List.map_cons, List.contains_cons, ih, beq_dot_toLower]

/-- C8 counterexample: the URL with path /v1.2/guide and no fragment has no
extension in the sense of the specification (its final segment guide
contains no dot), yet isValidUrl rejects it, because the code tests the
whole path for a dot; so eligibility is not equivalent to the stated
fragment-and-extension condition. -/
theorem c8_extension_filter_counterexample :
    ScraperUtils.isValidUrl uDotted = false ∧ specEligible uDotted = true ∧
    ¬(ScraperUtils.isValidUrl uDotted = true ↔ specEligible uDotted = true) := by decide

/-- C8 amended: a candidate absolute URL is crawl-eligible iff its href
contains no '#' and its lowercased path ends with .html or .htm or the
path contains no dot character anywhere — a dot inside a directory
segment disqualifies a URL whose final segment has no extension.  The
concrete examples of the claim all hold: .../guide and .../guide.html are
eligible, .../guide.pdf and .../guide with a fragment are not. -/
theorem c8_extension_filter_amended :
    (∀ u : Url, ScraperUtils.isValidUrl u = specEligibleAmended u) ∧
    ScraperUtils.isValidUrl ⟨"a.test", "/docs/guide", false⟩ = true ∧
    ScraperUtils.isValidUrl ⟨"a.test", "/docs/guide.html", false⟩ = true ∧
    ScraperUtils.isValidUrl ⟨"a.test", "/docs/guide.pdf", false⟩ = false ∧
    ScraperUtils.isValidUrl ⟨"a.test", "/docs/guide", true⟩ = false := by
  refine ⟨fun u => ?_, by decide, by decide, by decide, by decide⟩
  unfold ScraperUtils.isValidUrl specEligibleAmended
  cases hf : u.hasFragment with
  | true => simp [hf]
  | false =>
    simp only [hf, Bool.false_eq_true, if_false, Bool.not_false, Bool.true_and]
    rw [strContainsChar_lowerStr_dot]

/-- C9: when the injected transform yields null or an empty string,
processScrapedResult returns with the processing state unchanged: no
encoder call, no database insert, no error log and no info log. -/
theorem c9_parse_failure_atomicity (parse : String → Option String)
    (embed : String → Option (List ℚ)) (href : Url → String) (genId : String)
    (now : ℤ) (result : ScrapeResult) (st : Processor.ProcState)
    (h : parse result.content = none ∨ parse result.content = some "") :
    Processor.processScrapedResult parse embed href genId now result st = st := by
  unfold Processor.processScrapedResult
  rcases h with h | h <;> rw [h]
  simp

/-- Witness for C9: a transform that always yields null leaves a concrete
state unchanged. -/
theorem c9_parse_failure_atomicity_witness :
    ((fun _ : String => (none : Option String)) "c" = none ∨
      (fun _ : String => (none : Option String)) "c" = some "") ∧
    Processor.processScrapedResult (fun _ => none) (fun _ => some []) (fun _ => "")
      "id1" 0 ⟨uSeed, "c"⟩ ⟨[], [], [], []⟩ = ⟨[], [], [], []⟩ :=
  ⟨Or.inl rfl,
    c9_parse_failure_atomicity (fun _ => none) (fun _ => some []) (fun _ => "")
      "id1" 0 ⟨uSeed, "c"⟩ ⟨[], [], [], []⟩ (Or.inl rfl)⟩

/-! ## The vector search contract -/

/-- Characterisation of the JS rounding used for similarity scores. -/
theorem mathRound_eq (x : ℚ) (n : ℤ) (h1 : (n:ℚ) ≤ x + 1/2) (h2 : x + 1/2 < n + 1) :
    Database.mathRound x = n := by
  unfold Database.mathRound
  have ha : n ≤ Rat.floor (x + 1/2) := Rat.le_floor.mpr h1
  have hb : ¬ (n + 1 ≤ Rat.floor (x + 1/2)) := fun hc =>
    absurd (Rat.le_floor.mp hc) (by push_cast; linarith)
  omega

/-- C6: for every table of stored embeddings and every distance function,
searchVectors returns at most limit entries, their distances are ascending,
each similarity is Math.round((1 - distance) * 100), and the returned
entries are a minimal selection: the stored rows split (up to permutation)
into the returned ones and the rest, with every returned distance at most
every discarded distance.  On the concrete example with stored distances
0.1, 0.4 and 0.9 and limit 2, the result is the 0.1 and 0.4 entries in
that order with similarities 90 and 60. -/
theorem c6_search_vectors_contract :
    (∀ (rows : List Database.StoredRow) (dist : List ℚ → ℚ) (lim : Nat),
      (Database.searchVectors rows dist lim).length ≤ lim ∧
      ((Database.searchVectors rows dist lim).map (fun q => q.distance)).Pairwise (· ≤ ·) ∧
      (∀ q ∈ Database.searchVectors rows dist lim,
        q.similarity = Database.mathRound ((1 - q.distance) * 100)) ∧
      (∃ kept rest, (rows.map fun r => (r, dist r.vector)).Perm (kept ++ rest) ∧
        Database.searchVectors rows dist lim = kept.map Database.toQueryRow ∧
        ∀ a ∈ kept, ∀ b ∈ rest, a.2 ≤ b.2)) ∧
    (Database.searchVectors [rowC, rowA, rowB] exDist 2).map (fun q => (q.id, q.similarity)) =
      [("idA", 90), ("idB", 60)] := by
  constructor
  · intro rows dist lim
    unfold Database.searchVectors
    dsimp only
    have hsorted : (List.insertionSort Database.distLE
        (rows.map fun r => (r, dist r.vector))).Sorted Database.distLE :=
      List.sorted_insertionSort _ _
    have hperm : (List.insertionSort Database.distLE
        (rows.map fun r => (r, dist r.vector))).Perm (rows.map fun r => (r, dist r.vector)) :=
      List.perm_insertionSort _ _
    refine ⟨?_, ?_, ?_, ?_⟩
    · rw [List.length_map, List.length_take]
      exact min_le_left _ _
    · rw [List.map_map, List.pairwise_map]
      exact hsorted.sublist (List.take_sublist _ _)
    · intro q hq
      rcases List.mem_map.mp hq with ⟨rd, _, rfl⟩
      rfl
    · refine ⟨List.take lim (List.insertionSort Database.distLE
          (rows.map fun r => (r, dist r.vector))),
        List.drop lim (List.insertionSort Database.distLE
          (rows.map fun r => (r, dist r.vector))), ?_, rfl, ?_⟩
      · refine hperm.symm.trans ?_
        rw [List.take_append_drop]
      · have h2 := hsorted
        rw [← List.take_append_drop lim
          (List.insertionSort Database.distLE (rows.map fun r => (r, dist r.vector)))] at h2
        exact (List.pairwise_append.mp h2).2.2
  · have h90 : Database.mathRound 90 = 90 := mathRound_eq _ 90 (by norm_num) (by norm_num)
    have h60 : Database.mathRound 60 = 60 := mathRound_eq _ 60 (by norm_num) (by norm_num)
    norm_num [Database.searchVectors, exDist, rowA, rowB, rowC, List.insertionSort,
      List.orderedInsert, Database.distLE, Database.toQueryRow, h90, h60]

namespace ScraperUtils

theorem processUrlCont_results_succ (web : Web) (cfg : Config) (depth : Nat)
    (s : CrawlState) (u : Url) (c : String) (h : web.fetch u = some c) :
    (processUrlCont web cfg depth s u).results = s.results ++ [⟨u, c⟩] := by
  unfold processUrlCont
  rw [h]
  dsimp only
  split
  · rw [enqueueLinks_results]
  · rfl

theorem processUrlCont_results_none (web : Web) (cfg : Config) (depth : Nat)
    (s : CrawlState) (u : Url) (h : web.fetch u = none) :
    (processUrlCont web cfg depth s u).results = s.results := by
  unfold processUrlCont
  rw [h]

theorem fetchPhase_results_append (web : Web) (cfg : Config) (depth : Nat) :
    ∀ (kept : List Url) (s : CrawlState),
    ∃ t, (fetchPhase web cfg depth s kept).results = s.results ++ t
  | [], s => ⟨[], by simp [fetchPhase]⟩
  | v :: rest, s => by
    show ∃ t, (fetchPhase web cfg depth (processUrlCont web cfg depth s v) rest).results = _
    rcases fetchPhase_results_append web cfg depth rest (processUrlCont web cfg depth s v) with ⟨t, ht⟩
    cases h : web.fetch v with
    | none => exact ⟨t, by rw [ht, processUrlCont_results_none web cfg depth s v h]⟩
    | some c =>
      refine ⟨⟨v, c⟩ :: t, ?_⟩
      rw [ht, processUrlCont_results_succ web cfg depth s v c h]
      simp

theorem fetchPhase_mem_of_success (web : Web) (cfg : Config) (depth : Nat) :
    ∀ (kept : List Url) (s : CrawlState) (u : Url) (c : String), u ∈ kept →
    web.fetch u = some c →
    (⟨u, c⟩ : ScrapeResult) ∈ (fetchPhase web cfg depth s kept).results
  | [], _, _, _, hm, _ => absurd hm (List.not_mem_nil _)
  | v :: rest, s, u, c, hm, hf => by
    show (⟨u, c⟩ : ScrapeResult) ∈
      (fetchPhase web cfg depth (processUrlCont web cfg depth s v) rest).results
    rcases List.mem_cons.mp hm with hv | hv
    · subst hv
      rcases fetchPhase_results_append web cfg depth rest (processUrlCont web cfg depth s u)
        with ⟨t, ht⟩
      rw [ht, processUrlCont_results_succ web cfg depth s u c hf]
      simp
    · exact fetchPhase_mem_of_success web cfg depth rest _ u c hv hf

theorem fetchPhase_mem_of_failure (web : Web) (cfg : Config) (depth : Nat) :
    ∀ (kept : List Url) (s : CrawlState) (u : Url) (c : String),
    web.fetch u = none →
    (((⟨u, c⟩ : ScrapeResult) ∈ (fetchPhase web cfg depth s kept).results) ↔
      (⟨u, c⟩ : ScrapeResult) ∈ s.results)
  | [], _, _, _, _ => Iff.rfl
  | v :: rest, s, u, c, hf => by
    show ((⟨u, c⟩ : ScrapeResult) ∈
        (fetchPhase web cfg depth (processUrlCont web cfg depth s v) rest).results) ↔ _
    rw [fetchPhase_mem_of_failure web cfg depth rest _ u c hf]
    cases h : web.fetch v with
    | none => rw [processUrlCont_results_none web cfg depth s v h]
    | some d =>
      rw [processUrlCont_results_succ web cfg depth s v d h]
      have hne : u ≠ v := fun he => by rw [he, h] at hf; exact Option.noConfusion hf
      simp only [List.mem_append, List.mem_singleton]
      constructor
      · rintro (hh | hh)
        · exact hh
        · exact absurd (congrArg ScrapeResult.url hh) hne
      · exact Or.inl

end ScraperUtils

/-- C7: within a batch of concurrently fetched URLs, every URL that fetches
successfully contributes its PageResult to the result buffer no matter how
the sibling fetches fail, and a URL whose fetch fails contributes nothing
to the buffer for the run (the error is caught inside processUrl and the
loop continues). -/
theorem c7_fetch_failure_isolation (web : Web) (cfg : ScraperUtils.Config) (depth : Nat)
    (s : ScraperUtils.CrawlState) (kept : List Url) (u : Url) (h : u ∈ kept) :
    (∀ c, web.fetch u = some c →
      (⟨u, c⟩ : ScrapeResult) ∈ (ScraperUtils.fetchPhase web cfg depth s kept).results) ∧
    (web.fetch u = none → ∀ c,
      ((⟨u, c⟩ : ScrapeResult) ∈ (ScraperUtils.fetchPhase web cfg depth s kept).results ↔
        (⟨u, c⟩ : ScrapeResult) ∈ s.results)) :=
  ⟨fun c hc => ScraperUtils.fetchPhase_mem_of_success web cfg depth kept s u c h hc,
   fun hf c => ScraperUtils.fetchPhase_mem_of_failure web cfg depth kept s u c hf⟩

/-- Witness for C7: in a batch of five URLs where the fetch of uB fails,
the sibling uA still produces its PageResult. -/
theorem c7_fetch_failure_isolation_witness :
    isolWeb.fetch uB = none ∧
    (⟨uA, "/a"⟩ : ScrapeResult) ∈
      (ScraperUtils.fetchPhase isolWeb chainCfg 0 ScraperUtils.emptyState
        [uSeed, uA, uB, uC, uD]).results :=
  ⟨rfl, (c7_fetch_failure_isolation isolWeb chainCfg 0 ScraperUtils.emptyState
    [uSeed, uA, uB, uC, uD] uA (by decide)).1 "/a" rfl⟩

namespace ScraperUtils

theorem markPhase_good : ∀ (batch : List Url) (s : CrawlState),
    GoodState s → GoodState (markPhase s batch).1
  | [], _, hg => hg
  | u :: rest, s, hg => by
    unfold markPhase
    split
    · exact markPhase_good rest s hg
    · rename_i hu
      refine markPhase_good rest _ ⟨?_, ?_⟩
      · show s.fetched ++ [u] = s.visited ++ [u]
        rw [hg.1]
      · show (s.visited ++ [u]).Nodup
        rw [List.nodup_append]
        exact ⟨hg.2, List.nodup_singleton u, by
          rw [List.disjoint_singleton]; exact hu⟩

theorem fetchPhase_good (web : Web) (cfg : Config) (depth : Nat)
    (kept : List Url) (s : CrawlState) (hg : GoodState s) :
    GoodState (fetchPhase web cfg depth s kept) := by
  constructor
  · rw [fetchPhase_fetched, fetchPhase_visited]
    exact hg.1
  · rw [fetchPhase_visited]
    exact hg.2

theorem processBatch_good (cfg : Config) (bs : Nat) (s : CrawlState) (hg : GoodState s) :
    GoodState (processBatch cfg bs s) := by
  constructor
  · rw [processBatch_fetched, processBatch_visited]
    exact hg.1
  · rw [processBatch_visited]
    exact hg.2

theorem loopIter_good (web : Web) (cfg : Config) (s : CrawlState) (hg : GoodState s) :
    GoodState (loopIter web cfg s) := by
  unfold loopIter
  dsimp only
  have h0 : GoodState { s with queue := s.queue.drop cfg.concurrency } := hg
  have h1 := markPhase_good (s.queue.take cfg.concurrency) _ h0
  split
  · exact processBatch_good _ _ _ (fetchPhase_good _ _ _ _ _ h1)
  · exact fetchPhase_good _ _ _ _ _ h1

theorem crawlLoop_good (web : Web) (cfg : Config) :
    ∀ (fuel : Nat) (s : CrawlState), GoodState s → GoodState (crawlLoop web cfg fuel s)
  | 0, _, hg => hg
  | fuel + 1, s, hg => by
    unfold crawlLoop
    split
    · exact hg
    · exact crawlLoop_good web cfg fuel _ (loopIter_good web cfg s hg)

theorem initState_good (seed : Url) : GoodState (initState seed) :=
  ⟨rfl, List.nodup_nil⟩

theorem scrapeAll_good (web : Web) (cfg : Config) (fuel : Nat) (seed : Url) :
    GoodState (scrapeAll web cfg fuel seed).1 := by
  unfold scrapeAll
  dsimp only
  have h1 := crawlLoop_good web cfg fuel _ (initState_good seed)
  split
  · exact processBatch_good cfg _ _ h1
  · exact h1

end ScraperUtils

/-- C1: in any crawl run, the number of fetch attempts for a URL is one
when the URL is in the final visited set and zero otherwise, so every URL
is fetched at most once no matter how often it is rediscovered as a link,
and a visited URL is never fetched again. -/
theorem c1_at_most_once_fetch (web : Web) (cfg : ScraperUtils.Config) (fuel : Nat) (seed u : Url) :
    ((ScraperUtils.scrapeAll web cfg fuel seed).1.fetched.count u) =
      if u ∈ (ScraperUtils.scrapeAll web cfg fuel seed).1.visited then 1 else 0 := by
  obtain ⟨hf, hnd⟩ := ScraperUtils.scrapeAll_good web cfg fuel seed
  rw [hf]
  split
  · rename_i hm
    exact List.count_eq_one_of_mem hnd hm
  · rename_i hm
    exact List.count_eq_zero.mpr hm

namespace ScraperUtils

theorem extractLinks_hostname (web : Web) (html : String) (base : Url) (link : Url)
    (h : link ∈ extractLinks web html base) : link.hostname = base.hostname := by
  unfold extractLinks at h
  rcases List.mem_filterMap.mp h with ⟨cand, _, hc⟩
  cases cand with
  | none => exact Option.noConfusion hc
  | some v =>
    dsimp only at hc
    split at hc
    · rename_i hcond
      cases hc
      rw [Bool.and_eq_true] at hcond
      have hd : isWithinSameDomain link base = true := hcond.1
      unfold isWithinSameDomain at hd
      exact eq_of_beq hd
    · exact Option.noConfusion hc

theorem enqueue_host (h : String) (s : CrawlState) (u : Url)
    (hs : HostOk h s) (hu : u.hostname = h) : HostOk h (enqueue s u) := by
  unfold enqueue
  split
  · exact hs
  · refine ⟨?_, hs.2.1, ?_, hs.2.2.2⟩
    · intro v hv
      rcases List.mem_append.mp hv with hv | hv
      · exact hs.1 v hv
      · rw [List.mem_singleton.mp hv]; exact hu
    · intro v hv
      rcases List.mem_append.mp hv with hv | hv
      · exact hs.2.2.1 v hv
      · rw [List.mem_singleton.mp hv]; exact hu

theorem enqueueLinks_host (h : String) : ∀ (links : List Url) (s : CrawlState),
    HostOk h s → (∀ l ∈ links, l.hostname = h) → HostOk h (enqueueLinks s links)
  | [], _, hs, _ => hs
  | a :: t, s, hs, hl => by
    show HostOk h (enqueueLinks (if a ∈ s.visited then s else enqueue s a) t)
    refine enqueueLinks_host h t _ ?_ (fun l hlm => hl l (List.mem_cons_of_mem _ hlm))
    split
    · exact hs
    · exact enqueue_host h s a hs (hl a (List.mem_cons_self _ _))

theorem processUrlCont_host (web : Web) (cfg : Config) (depth : Nat) (h : String)
    (s : CrawlState) (u : Url) (hs : HostOk h s) (hu : u.hostname = h) :
    HostOk h (processUrlCont web cfg depth s u) := by
  unfold processUrlCont
  cases web.fetch u with
  | none => exact hs
  | some content =>
    dsimp only
    have hs1 : HostOk h { s with
      results := s.results ++ [⟨u, content⟩]
      produced := s.produced ++ [⟨u, content⟩] } := hs
    split
    · refine enqueueLinks_host h _ _ hs1 ?_
      intro l hl
      rw [extractLinks_hostname web content u l hl]
      exact hu
    · exact hs1

theorem fetchPhase_host (web : Web) (cfg : Config) (depth : Nat) (h : String) :
    ∀ (kept : List Url) (s : CrawlState), HostOk h s →
    (∀ v ∈ kept, v.hostname = h) → HostOk h (fetchPhase web cfg depth s kept)
  | [], _, hs, _ => hs
  | v :: rest, s, hs, hk => by
    show HostOk h (fetchPhase web cfg depth (processUrlCont web cfg depth s v) rest)
    exact fetchPhase_host web cfg depth h rest _
      (processUrlCont_host web cfg depth h s v hs (hk v (List.mem_cons_self _ _)))
      (fun w hw => hk w (List.mem_cons_of_mem _ hw))

theorem markPhase_host (h : String) : ∀ (batch : List Url) (s : CrawlState),
    HostOk h s → (∀ v ∈ batch, v.hostname = h) →
    HostOk h (markPhase s batch).1 ∧ ∀ v ∈ (markPhase s batch).2, v.hostname = h
  | [], _, hs, _ => ⟨hs, by intro v hv; exact absurd hv (List.not_mem_nil v)⟩
  | u :: rest, s, hs, hb => by
    unfold markPhase
    split
    · exact markPhase_host h rest s hs (fun v hv => hb v (List.mem_cons_of_mem _ hv))
    · have hu : u.hostname = h := hb u (List.mem_cons_self _ _)
      have hs' : HostOk h { s with visited := s.visited ++ [u], fetched := s.fetched ++ [u] } := by
        refine ⟨hs.1, ?_, hs.2.2.1, ?_⟩
        · intro v hv
          rcases List.mem_append.mp hv with hv | hv
          · exact hs.2.1 v hv
          · rw [List.mem_singleton.mp hv]; exact hu
        · intro v hv
          rcases List.mem_append.mp hv with hv | hv
          · exact hs.2.2.2 v hv
          · rw [List.mem_singleton.mp hv]; exact hu
      have hrec := markPhase_host h rest _ hs'
        (fun v hv => hb v (List.mem_cons_of_mem _ hv))
      refine ⟨hrec.1, ?_⟩
      intro v hv
      rcases List.mem_cons.mp hv with hv | hv
      · rw [hv]; exact hu
      · exact hrec.2 v hv

theorem trimQueue_subset (q : List Url) (u : Url) (h : u ∈ trimQueue q) : u ∈ q := by
  unfold trimQueue at h
  split at h
  · rcases mem_foldl_setAdd _ _ _ h with h' | h'
    · exact absurd h' (List.not_mem_nil u)
    · exact List.drop_subset _ _ h'
  · exact h

theorem processBatch_host (cfg : Config) (bs : Nat) (h : String) (s : CrawlState)
    (hs : HostOk h s) : HostOk h (processBatch cfg bs s) := by
  unfold processBatch
  split
  · exact ⟨fun u hu => hs.1 u (trimQueue_subset _ u hu), hs.2.1, hs.2.2.1, hs.2.2.2⟩
  · exact hs

theorem loopIter_host (web : Web) (cfg : Config) (h : String) (s : CrawlState)
    (hs : HostOk h s) : HostOk h (loopIter web cfg s) := by
  unfold loopIter
  dsimp only
  have h0 : HostOk h { s with queue := s.queue.drop cfg.concurrency } :=
    ⟨fun u hu => hs.1 u (List.drop_subset _ _ hu), hs.2.1, hs.2.2.1, hs.2.2.2⟩
  have hbatch : ∀ v ∈ s.queue.take cfg.concurrency, v.hostname = h :=
    fun v hv => hs.1 v (List.take_subset _ _ hv)
  have hmp := markPhase_host h (s.queue.take cfg.concurrency) _ h0 hbatch
  split
  · exact processBatch_host _ _ _ _ (fetchPhase_host _ _ _ _ _ _ hmp.1 hmp.2)
  · exact fetchPhase_host _ _ _ _ _ _ hmp.1 hmp.2

theorem crawlLoop_host (web : Web) (cfg : Config) (h : String) :
    ∀ (fuel : Nat) (s : CrawlState), HostOk h s → HostOk h (crawlLoop web cfg fuel s)
  | 0, _, hs => hs
  | fuel + 1, s, hs => by
    unfold crawlLoop
    split
    · exact hs
    · exact crawlLoop_host web cfg h fuel _ (loopIter_host web cfg h s hs)

theorem initState_host (seed : Url) : HostOk seed.hostname (initState seed) := by
  refine ⟨?_, ?_, ?_, ?_⟩ <;> intro v hv
  · rw [List.mem_singleton.mp hv]
  · exact absurd hv (List.not_mem_nil v)
  · rw [List.mem_singleton.mp hv]
  · exact absurd hv (List.not_mem_nil v)

theorem scrapeAll_host (web : Web) (cfg : Config) (fuel : Nat) (seed : Url) :
    HostOk seed.hostname (scrapeAll web cfg fuel seed).1 := by
  unfold scrapeAll
  dsimp only
  have h1 := crawlLoop_host web cfg seed.hostname fuel _ (initState_host seed)
  split
  · exact processBatch_host _ _ _ _ h1
  · exact h1

end ScraperUtils

/-- C5: every URL ever enqueued into the pending queue, and every URL ever
fetched, shares the exact hostname of the seed URL: although the code
compares each link against the current page rather than the seed, hostname
equality propagates from the seed along every discovery. -/
theorem c5_same_origin_invariant (web : Web) (cfg : ScraperUtils.Config) (fuel : Nat) (seed u : Url)
    (h : u ∈ (ScraperUtils.scrapeAll web cfg fuel seed).1.enqueuedEver ∨
      u ∈ (ScraperUtils.scrapeAll web cfg fuel seed).1.fetched) :
    u.hostname = seed.hostname := by
  have hh := ScraperUtils.scrapeAll_host web cfg fuel seed
  rcases h with h | h
  · exact hh.2.2.1 u h
  · exact hh.2.2.2 u h

/-- Witness for C5: in the chain world the page a is enqueued, and the
theorem applied there yields that its hostname is the hostname of the
seed. -/
theorem c5_same_origin_invariant_witness :
    uA ∈ (ScraperUtils.scrapeAll chainWeb chainCfg 10 uSeed).1.enqueuedEver ∧
    uA.hostname = uSeed.hostname :=
  ⟨by decide, c5_same_origin_invariant chainWeb chainCfg 10 uSeed uA (Or.inl (by decide))⟩

namespace ScraperUtils

theorem markPhase_buf (batch : List Url) (s : CrawlState) (hb : BufOk s) :
    BufOk (markPhase s batch).1 := by
  unfold BufOk at *
  rw [markPhase_results, markPhase_produced, markPhase_handed]
  exact hb

theorem processUrlCont_buf (web : Web) (cfg : Config) (depth : Nat)
    (s : CrawlState) (u : Url) (hb : BufOk s) :
    BufOk (processUrlCont web cfg depth s u) := by
  unfold BufOk at *
  cases h : web.fetch u with
  | none => rw [processUrlCont_results_none web cfg depth s u h]
            unfold processUrlCont
            rw [h]
            exact hb
  | some c =>
    have hpr : (processUrlCont web cfg depth s u).produced = s.produced ++ [⟨u, c⟩] := by
      unfold processUrlCont
      rw [h]
      dsimp only
      split
      · rw [enqueueLinks_produced]
      · rfl
    have hha : (processUrlCont web cfg depth s u).handed = s.handed := processUrlCont_handed _ _ _ _ _
    rw [processUrlCont_results_succ web cfg depth s u c h, hpr, hha, ← List.append_assoc]
    exact hb.append (List.Sublist.refl [(⟨u, c⟩ : ScrapeResult)])

theorem fetchPhase_buf (web : Web) (cfg : Config) (depth : Nat) :
    ∀ (kept : List Url) (s : CrawlState), BufOk s →
    BufOk (fetchPhase web cfg depth s kept)
  | [], _, hb => hb
  | v :: rest, s, hb => by
    show BufOk (fetchPhase web cfg depth (processUrlCont web cfg depth s v) rest)
    exact fetchPhase_buf web cfg depth rest _ (processUrlCont_buf web cfg depth s v hb)

theorem processBatch_buf (cfg : Config) (bs : Nat) (s : CrawlState) (hb : BufOk s) :
    BufOk (processBatch cfg bs s) := by
  unfold BufOk processBatch at *
  split
  · dsimp only
    rw [List.append_nil]
    refine List.Sublist.trans ?_ hb
    exact (List.take_sublist bs s.results).append_left s.handed
  · dsimp only
    refine List.Sublist.trans ?_ hb
    exact (List.drop_sublist bs s.results).append_left s.handed

theorem loopIter_buf (web : Web) (cfg : Config) (s : CrawlState) (hb : BufOk s) :
    BufOk (loopIter web cfg s) := by
  unfold loopIter
  dsimp only
  have h0 : BufOk { s with queue := s.queue.drop cfg.concurrency } := hb
  have h1 := markPhase_buf (s.queue.take cfg.concurrency) _ h0
  split
  · exact processBatch_buf _ _ _ (fetchPhase_buf _ _ _ _ _ h1)
  · exact fetchPhase_buf _ _ _ _ _ h1

theorem crawlLoop_buf (web : Web) (cfg : Config) :
    ∀ (fuel : Nat) (s : CrawlState), BufOk s → BufOk (crawlLoop web cfg fuel s)
  | 0, _, hb => hb
  | fuel + 1, s, hb => by
    unfold crawlLoop
    split
    · exact hb
    · exact crawlLoop_buf web cfg fuel _ (loopIter_buf web cfg s hb)

theorem scrapeAll_buf (web : Web) (cfg : Config) (fuel : Nat) (seed : Url) :
    BufOk (scrapeAll web cfg fuel seed).1 := by
  unfold scrapeAll
  dsimp only
  have h1 : BufOk (crawlLoop web cfg fuel (initState seed)) :=
    crawlLoop_buf web cfg fuel _ (List.nil_sublist _)
  split
  · exact processBatch_buf _ _ _ h1
  · exact h1

end ScraperUtils

/-- C3 amended: the results handed to the ingest pipeline, followed by the
results still buffered, always form a sublist of the results ever
produced; hence every handed result was produced, order is preserved, and
no produced result is ever handed to the pipeline more than once.  (The
unamended claim fails: results beyond the first batchSize present at a
drain are discarded unprocessed, see the counterexample.) -/
theorem c3_exactly_once_amended (web : Web) (cfg : ScraperUtils.Config) (fuel : Nat) (seed : Url) :
    ((ScraperUtils.scrapeAll web cfg fuel seed).1.handed ++
      (ScraperUtils.scrapeAll web cfg fuel seed).1.results).Sublist
      (ScraperUtils.scrapeAll web cfg fuel seed).1.produced ∧
    ∀ r : ScrapeResult,
      (ScraperUtils.scrapeAll web cfg fuel seed).1.handed.count r ≤
        (ScraperUtils.scrapeAll web cfg fuel seed).1.produced.count r := by
  have hb := ScraperUtils.scrapeAll_buf web cfg fuel seed
  refine ⟨hb, fun r => ?_⟩
  have : (ScraperUtils.scrapeAll web cfg fuel seed).1.handed.Sublist
      (ScraperUtils.scrapeAll web cfg fuel seed).1.produced :=
    List.Sublist.trans (List.sublist_append_left _ _) hb
  exact this.count_le r

/-- C3 counterexample: in the fan world with batchSize 1 and concurrency 2
and with encoder and schema provided, the page b is successfully fetched
and its PageResult is recorded in the buffer (it is in produced), yet it is
never handed to the ingest pipeline and it is no longer buffered at the
end of the run: processBatch drops it when it resets the buffer after
splicing only the first batchSize results. -/
theorem c3_result_drop_counterexample :
    (⟨uB, "/b"⟩ : ScrapeResult) ∈ (ScraperUtils.scrapeAll fanWeb fanCfg 10 uSeed).1.produced ∧
    (⟨uB, "/b"⟩ : ScrapeResult) ∉ (ScraperUtils.scrapeAll fanWeb fanCfg 10 uSeed).1.handed ∧
    (ScraperUtils.scrapeAll fanWeb fanCfg 10 uSeed).1.results = [] ∧
    fanCfg.hasEncoder = true ∧ fanCfg.hasSchema = true := by decide

namespace ScraperUtils

theorem processBatch_results_pipeline (cfg : Config) (bs : Nat) (s : CrawlState)
    (h : cfg.hasEncoder = true ∧ cfg.hasSchema = true) :
    (processBatch cfg bs s).results = [] := by
  unfold processBatch
  rw [if_pos h]

theorem processUrlCont_np (web : Web) (cfg : Config) (depth : Nat)
    (s : CrawlState) (u : Url) (h : s.results = s.produced) :
    (processUrlCont web cfg depth s u).results = (processUrlCont web cfg depth s u).produced := by
  unfold processUrlCont
  cases web.fetch u with
  | none => exact h
  | some c =>
    dsimp only
    split
    · rw [enqueueLinks_results, enqueueLinks_produced]
      dsimp only
      rw [h]
    · show s.results ++ _ = s.produced ++ _
      rw [h]

theorem fetchPhase_np (web : Web) (cfg : Config) (depth : Nat) :
    ∀ (kept : List Url) (s : CrawlState), s.results = s.produced →
    (fetchPhase web cfg depth s kept).results = (fetchPhase web cfg depth s kept).produced
  | [], _, h => h
  | v :: rest, s, h => by
    show (fetchPhase web cfg depth (processUrlCont web cfg depth s v) rest).results = _
    exact fetchPhase_np web cfg depth rest _ (processUrlCont_np web cfg depth s v h)

theorem loopIter_np (web : Web) (cfg : Config) (s : CrawlState)
    (hnp : cfg.hasEncoder = false ∨ cfg.hasSchema = false)
    (h : s.results = s.produced) :
    (loopIter web cfg s).results = (loopIter web cfg s).produced := by
  unfold loopIter
  dsimp only
  have h1 : (markPhase { s with queue := s.queue.drop cfg.concurrency }
      (s.queue.take cfg.concurrency)).1.results =
      (markPhase { s with queue := s.queue.drop cfg.concurrency }
      (s.queue.take cfg.concurrency)).1.produced := by
    rw [markPhase_results, markPhase_produced]
    exact h
  split
  · rename_i hc
    exfalso
    rcases hnp with hnp | hnp
    · rw [hc.2.1] at hnp; exact Bool.noConfusion hnp
    · rw [hc.2.2] at hnp; exact Bool.noConfusion hnp
  · exact fetchPhase_np _ _ _ _ _ h1

theorem crawlLoop_np (web : Web) (cfg : Config)
    (hnp : cfg.hasEncoder = false ∨ cfg.hasSchema = false) :
    ∀ (fuel : Nat) (s : CrawlState), s.results = s.produced →
    (crawlLoop web cfg fuel s).results = (crawlLoop web cfg fuel s).produced
  | 0, _, h => h
  | fuel + 1, s, h => by
    unfold crawlLoop
    split
    · exact h
    · exact crawlLoop_np web cfg hnp fuel _ (loopIter_np web cfg s hnp h)

end ScraperUtils

/-- C10: whenever scrapeAll runs with both an encoder and a schema, the
value it returns is the empty array — the final drain resets the buffer —
and when the encoder or the schema is omitted the returned array is
exactly the sequence of results produced during the run. -/
theorem c10_pipeline_returns_empty (web : Web) (cfg : ScraperUtils.Config) (fuel : Nat) (seed : Url) :
    (cfg.hasEncoder = true → cfg.hasSchema = true →
      (ScraperUtils.scrapeAll web cfg fuel seed).2 = []) ∧
    (cfg.hasEncoder = false ∨ cfg.hasSchema = false →
      (ScraperUtils.scrapeAll web cfg fuel seed).2 =
        (ScraperUtils.scrapeAll web cfg fuel seed).1.produced) := by
  constructor
  · intro henc hsch
    unfold ScraperUtils.scrapeAll
    dsimp only
    split
    · exact ScraperUtils.processBatch_results_pipeline cfg _ _ ⟨henc, hsch⟩
    · rename_i hneg
      have hz : ¬(0 < (ScraperUtils.crawlLoop web cfg fuel
          (ScraperUtils.initState seed)).results.length) :=
        fun hlt => hneg ⟨hlt, henc, hsch⟩
      exact List.eq_nil_of_length_eq_zero (by omega)
  · intro hnp
    unfold ScraperUtils.scrapeAll
    dsimp only
    split
    · rename_i hc
      exfalso
      rcases hnp with hnp | hnp
      · rw [hc.2.1] at hnp; exact Bool.noConfusion hnp
      · rw [hc.2.2] at hnp; exact Bool.noConfusion hnp
    · exact ScraperUtils.crawlLoop_np web cfg hnp fuel _ rfl

/-- Witness for C10: with encoder and schema provided the fan run returns
the empty array, and without them the chain run returns all produced
results. -/
theorem c10_pipeline_returns_empty_witness :
    fanCfg.hasEncoder = true ∧ fanCfg.hasSchema = true ∧
    (ScraperUtils.scrapeAll fanWeb fanCfg 10 uSeed).2 = [] :=
  ⟨rfl, rfl, (c10_pipeline_returns_empty fanWeb fanCfg 10 uSeed).1 rfl rfl⟩

/-- C2: the depth bound is not enforced by the code.  In the chain world
with the default maxDepth of 3, the page c is first discovered at depth 3
and d at depth 4, yet d is enqueued and fetched (so the links of c were
extracted and enqueued) and e is enqueued (so the links of d were
extracted too): scrapeAll passes depth 0 for every dequeued URL because
the pending queue stores bare URL strings, so the check depth < maxDepth
always compares 0 < maxDepth. -/
theorem c2_depth_bound_violated :
    chainCfg.maxDepth = 3 ∧
    uD ∈ (ScraperUtils.crawlLoop chainWeb chainCfg 10 (ScraperUtils.initState uSeed)).enqueuedEver ∧
    uD ∈ (ScraperUtils.crawlLoop chainWeb chainCfg 10 (ScraperUtils.initState uSeed)).fetched ∧
    uE ∈ (ScraperUtils.crawlLoop chainWeb chainCfg 10 (ScraperUtils.initState uSeed)).enqueuedEver := by
  decide

/-- Witness for C3: the buffer invariant evaluated on the concrete chain
run. -/
theorem c3_exactly_once_amended_witness :
    ((ScraperUtils.scrapeAll chainWeb chainCfg 10 uSeed).1.handed ++
      (ScraperUtils.scrapeAll chainWeb chainCfg 10 uSeed).1.results).Sublist
      (ScraperUtils.scrapeAll chainWeb chainCfg 10 uSeed).1.produced :=
  (c3_exactly_once_amended chainWeb chainCfg 10 uSeed).1

/-- Witness for C6: the contract instantiated on a concrete one-row store,
and the similarity of the best match evaluated there. -/
theorem c6_search_vectors_contract_witness :
    (Database.searchVectors [rowA] exDist 1).length ≤ 1 ∧
    ∀ q ∈ Database.searchVectors [rowA] exDist 1,
      q.similarity = Database.mathRound ((1 - q.distance) * 100) :=
  ⟨(c6_search_vectors_contract.1 [rowA] exDist 1).1,
   (c6_search_vectors_contract.1 [rowA] exDist 1).2.2.1⟩
